import Mathlib

/-!
A shallow embedding of the grid-world reinforcement-learning core of the
rl-visual-learner repository: the cell/grid data model (types.ts), the fixed
3×4 layout and constants (constants.ts), the transition model, value-iteration
sweep, greedy / epsilon-greedy policies and the Q-Learning / SARSA updates
(services/rlService.ts), and the TD(0) utility update performed inline in the
driver's stepRL function (App.tsx).

JS numbers are embedded as exact rationals; the random draws consumed by
Math.random() are made explicit real-valued inputs in [0, 1), so that the
stochastic contracts can be stated as Lebesgue-measure facts.
-/

set_option linter.unusedSectionVars false
set_option maxHeartbeats 1000000

namespace RLVisualLearner

open MeasureTheory Set

/-- Cell types of the grid world (types.ts CellType). -/
inductive CellType
  | EMPTY
  | WALL
  | TERMINAL
  | START
deriving DecidableEq

/-- The four agent actions (types.ts Action). -/
inductive Action
  | UP
  | DOWN
  | LEFT
  | RIGHT
deriving DecidableEq

/-- One cell of the grid (types.ts CellState).  The qValues record, which by
invariant always holds exactly the four action keys, is a total function on
Action. -/
structure CellState where
  row : ℕ
  col : ℕ
  type : CellType
  reward : ℚ
  utility : ℚ
  qValues : Action → ℚ
  policy : Option Action
  visitCount : ℕ

instance : Inhabited CellState :=
  ⟨⟨0, 0, CellType.EMPTY, 0, 0, fun _ => 0, none, 0⟩⟩

/-- constants.ts ROWS. -/
abbrev ROWS : ℕ := 3

/-- constants.ts COLS. -/
abbrev COLS : ℕ := 4

/-- A grid is a ROWS × COLS arrangement of cells (types.ts Grid); the fixed
dimensions are modelled by Fin-typed indexing. -/
abbrev Grid := Fin ROWS → Fin COLS → CellState

/-- A valid grid position. -/
abbrev Pos := Fin ROWS × Fin COLS

/-- constants.ts ACTIONS, in its literal order. -/
def ACTIONS : List Action := [Action.UP, Action.DOWN, Action.LEFT, Action.RIGHT]

/-- Reading grid[r][c] at integer coordinates.  Every such read in the source
is guarded to be in bounds, so the default branch is never reached there. -/
def cellAt (g : Grid) (r c : ℤ) : CellState :=
  if h : r.toNat < ROWS ∧ c.toNat < COLS ∧ 0 ≤ r ∧ 0 ≤ c then
    g ⟨r.toNat, h.1⟩ ⟨c.toNat, h.2.1⟩
  else default

/-- constants.ts createInitialGrid: the fixed 3×4 layout, with the wall at
(1,1), terminals +1 at (0,3) and −1 at (1,3), start at (2,0), reproducing
the source's if-chain. -/
def createInitialGrid (stepReward : ℚ) : Grid := fun r c =>
  let tr : CellType × ℚ :=
    if r.val = 1 ∧ c.val = 1 then (CellType.WALL, 0)
    else if r.val = 0 ∧ c.val = 3 then (CellType.TERMINAL, 1)
    else if r.val = 1 ∧ c.val = 3 then (CellType.TERMINAL, -1)
    else if r.val = 2 ∧ c.val = 0 then (CellType.START, stepReward)
    else (CellType.EMPTY, stepReward)
  { row := r.val, col := c.val, type := tr.1, reward := tr.2,
    utility := 0, qValues := fun _ => 0, policy := none, visitCount := 0 }

/-- rlService getOrthogonalActions (lines 52–55). -/
def getOrthogonalActions (a : Action) : Action × Action :=
  if a = Action.UP ∨ a = Action.DOWN then (Action.LEFT, Action.RIGHT)
  else (Action.UP, Action.DOWN)

/-- The movement delta of each action (the switch of rlService lines 28–33);
row 0 is the top row, so UP decrements the row index. -/
def actionDelta : Action → ℤ × ℤ
  | Action.UP => (-1, 0)
  | Action.DOWN => (1, 0)
  | Action.LEFT => (0, -1)
  | Action.RIGHT => (0, 1)

variable {K : Type} [LinearOrderedField K] [FloorRing K]

/-- The stochastic slip applied to the intended action (rlService lines
14–23), with the Math.random() draw u made an explicit input.  The draw
type K is any linear ordered field: ℚ for executable instances, ℝ for the
measure-theoretic statements about the uniform draw. -/
def slipAction (a : Action) (isStochastic : Bool) (u : K) : Action :=
  if isStochastic ∧ u > 0.8 then
    (if u > 0.9 then (getOrthogonalActions a).1 else (getOrthogonalActions a).2)
  else a

/-- rlService getNextState (lines 6–50): move-or-bump, after an optional
stochastic slip of the intended action. -/
def getNextState (g : Grid) (row col : ℤ) (a : Action) (isStochastic : Bool)
    (u : K) : ℤ × ℤ :=
  let intended := slipAction a isStochastic u
  let d := actionDelta intended
  let newRow := row + d.1
  let newCol := col + d.2
  if newRow < 0 ∨ (ROWS : ℤ) ≤ newRow ∨ newCol < 0 ∨ (COLS : ℤ) ≤ newCol ∨
      (cellAt g newRow newCol).type = CellType.WALL then
    (row, col)
  else
    (newRow, newCol)

/-- Maximum over the four entries of an action-indexed record: the meaning of
Math.max(...Object.values(qValues)) in the source, and of the claims' "max
over the four actions". -/
def max4 (f : Action → ℚ) : ℚ :=
  max (max (max (f Action.UP) (f Action.DOWN)) (f Action.LEFT)) (f Action.RIGHT)

/-- The previous-sweep utility of the deterministic destination of one move
(the body of the inner loop of performValueIterationStep, lines 87–91). -/
def destUtil (g : Grid) (r c : ℤ) (x : Action) : ℚ :=
  let p := getNextState g r c x false (0 : ℚ)
  (cellAt g p.1 p.2).utility

/-- Expected utility of an action: 0.8 forward plus 0.1 for each orthogonal
slip, summed over the moves list of rlService lines 81–91. -/
def expectedUtil (g : Grid) (r c : ℤ) (a : Action) : ℚ :=
  0.8 * destUtil g r c a
    + 0.1 * destUtil g r c (getOrthogonalActions a).1
    + 0.1 * destUtil g r c (getOrthogonalActions a).2

/-- One iteration of the argmax loop of performValueIterationStep (lines
93–96): keep the strictly larger expected utility. -/
def bellmanStep (f : Action → ℚ) (mb : ℚ × Action) (x : Action) : ℚ × Action :=
  if mb.1 < f x then (f x, x) else mb

/-- The whole argmax loop (lines 73–97).  The source starts from
maxUtility = -Infinity, so the first iteration always takes the update
branch; this is folded into the initial accumulator here. -/
def bellmanScan (f : Action → ℚ) : ℚ × Action :=
  [Action.DOWN, Action.LEFT, Action.RIGHT].foldl (bellmanStep f) (f Action.UP, Action.UP)

/-- rlService performValueIterationStep (lines 58–104): one synchronous
Bellman sweep reading only the input grid. -/
def performValueIterationStep (g : Grid) (gamma : ℚ) : Grid := fun r c =>
  let cell := g r c
  if cell.type = CellType.WALL then cell
  else if cell.type = CellType.TERMINAL then { cell with utility := cell.reward }
  else
    let mb := bellmanScan (fun a => expectedUtil g (r.val : ℤ) (c.val : ℤ) a)
    { cell with utility := cell.reward + gamma * mb.1, policy := some mb.2 }

/-- n repeated value-iteration sweeps. -/
def viIter (gamma : ℚ) (g : Grid) : ℕ → Grid
  | 0 => g
  | n + 1 => performValueIterationStep (viIter gamma g n) gamma

/-- One iteration of the getGreedyAction loop (rlService lines 111–118):
reset the tied list on a strictly larger Q-value, append on an exact tie. -/
def greedyStep (q : Action → ℚ) (mb : ℚ × List Action) (x : Action) :
    ℚ × List Action :=
  if mb.1 < q x then (q x, [x])
  else if q x = mb.1 then (mb.1, mb.2 ++ [x])
  else mb

/-- The whole loop of getGreedyAction.  The source starts from
maxQ = -Infinity and bestActions = [], so the first iteration always takes
the reset branch; this is folded into the initial accumulator here. -/
def greedyScan (q : Action → ℚ) : ℚ × List Action :=
  [Action.DOWN, Action.LEFT, Action.RIGHT].foldl (greedyStep q) (q Action.UP, [Action.UP])

/-- Selecting index Math.floor(u * length) from a list, as in rlService
lines 120 and 126.  For u in [0,1) the index is always in range, so the
default value is never used there. -/
def pickAt (bs : List Action) (u : K) : Action :=
  bs.getD (⌊u * (bs.length : K)⌋).toNat Action.UP

/-- rlService getGreedyAction (lines 107–121), with the tie-break draw u
made an explicit input. -/
def getGreedyAction (cell : CellState) (u : K) : Action :=
  pickAt (greedyScan cell.qValues).2 u

/-- rlService getEpsilonGreedyAction (lines 124–129).  u1 is the branch
draw; u2 is the draw consumed by whichever branch is taken (the uniform
index draw, or getGreedyAction's tie-break draw). -/
def getEpsilonGreedyAction (cell : CellState) (epsilon : K) (u1 u2 : K) : Action :=
  if u1 < epsilon then pickAt ACTIONS u2
  else getGreedyAction cell u2

/-- The cell written at s by updateQLearning (rlService lines 142–163): the
qValues record with entry a replaced by the Q-learning target, the utility
recomputed as the max of the updated qValues, and the policy recomputed by
getGreedyAction on the updated cell (u is that call's tie-break draw).
maxQPrime is read from the input grid before the qValues of s are replaced,
as in the source. -/
def qlNewCell (g : Grid) (s : Pos) (a : Action) (r : ℚ) (sP : Pos)
    (alpha gamma : ℚ) (u : K) : CellState :=
  let oldQ := (g s.1 s.2).qValues a
  let maxQPrime : ℚ :=
    if (g sP.1 sP.2).type = CellType.TERMINAL then 0
    else max4 (g sP.1 sP.2).qValues
  let newQ := oldQ + alpha * (r + gamma * maxQPrime - oldQ)
  let newQs : Action → ℚ := fun x => if x = a then newQ else (g s.1 s.2).qValues x
  let withQ : CellState := { g s.1 s.2 with qValues := newQs, utility := max4 newQs }
  { withQ with policy := some (getGreedyAction withQ u) }

/-- rlService updateQLearning (lines 132–166): the returned grid equals the
input everywhere except at s, which receives qlNewCell. -/
def updateQLearning (g : Grid) (s : Pos) (a : Action) (r : ℚ) (sP : Pos)
    (alpha gamma : ℚ) (u : K) : Grid :=
  fun i j => if i = s.1 ∧ j = s.2 then qlNewCell g s a r sP alpha gamma u else g i j

/-- The cell written at s by updateSARSA (rlService lines 180–197); aP is
the caller-supplied next action, and u the tie-break draw of the policy
recomputation. -/
def sarsaNewCell (g : Grid) (s : Pos) (a : Action) (r : ℚ) (sP : Pos)
    (aP : Action) (alpha gamma : ℚ) (u : K) : CellState :=
  let oldQ := (g s.1 s.2).qValues a
  let qPrime : ℚ :=
    if (g sP.1 sP.2).type = CellType.TERMINAL then 0
    else (g sP.1 sP.2).qValues aP
  let newQ := oldQ + alpha * (r + gamma * qPrime - oldQ)
  let newQs : Action → ℚ := fun x => if x = a then newQ else (g s.1 s.2).qValues x
  let withQ : CellState := { g s.1 s.2 with qValues := newQs, utility := max4 newQs }
  { withQ with policy := some (getGreedyAction withQ u) }

/-- rlService updateSARSA (lines 169–200): the returned grid equals the
input everywhere except at s, which receives sarsaNewCell. -/
def updateSARSA (g : Grid) (s : Pos) (a : Action) (r : ℚ) (sP : Pos)
    (aP : Action) (alpha gamma : ℚ) (u : K) : Grid :=
  fun i j => if i = s.1 ∧ j = s.2 then sarsaNewCell g s a r sP aP alpha gamma u else g i j

/-- The TD(0) branch of the driver's stepRL (App.tsx lines 118–125): update
only the utility of the source cell. -/
def updateTD (g : Grid) (s sP : Pos) (r alpha gamma : ℚ) : Grid :=
  let currentU := (g s.1 s.2).utility
  let nextCell := g sP.1 sP.2
  let nextU := if nextCell.type = CellType.TERMINAL then nextCell.reward else nextCell.utility
  let newU := currentU + alpha * (r + gamma * nextU - currentU)
  fun i j => if i = s.1 ∧ j = s.2 then { g i j with utility := newU } else g i j

/-- The first action in the order UP, DOWN, LEFT, RIGHT attaining a given
value (the claims' first-found tie-break). -/
def firstAttaining (f : Action → ℚ) (m : ℚ) : Option Action :=
  ACTIONS.find? (fun a => f a = m)

/-- The actions tied for the maximal Q-value, in iteration order. -/
def tiedActions (q : Action → ℚ) : List Action :=
  ACTIONS.filter (fun a => q a = max4 q)

/-! ### Properties of the getGreedyAction accumulation loop -/

lemma greedyFold_fst (q : Action → ℚ) (l : List Action) :
    ∀ (m : ℚ) (bs : List Action),
      (l.foldl (greedyStep q) (m, bs)).1 = l.foldl (fun acc x => max acc (q x)) m := by
  induction l with
  | nil => intro m bs; rfl
  | cons x t ih =>
    intro m bs
    rw [List.foldl_cons, List.foldl_cons]
    by_cases h : m < q x
    · rw [show greedyStep q (m, bs) x = (q x, [x]) from by simp [greedyStep, h],
        max_eq_right h.le]
      exact ih _ _
    · by_cases h2 : q x = m
      · rw [show greedyStep q (m, bs) x = (m, bs ++ [x]) from by simp [greedyStep, h, h2],
          max_eq_left (not_lt.mp h)]
        exact ih _ _
      · rw [show greedyStep q (m, bs) x = (m, bs) from by simp [greedyStep, h, h2],
          max_eq_left (not_lt.mp h)]
        exact ih _ _

lemma le_foldlMax (q : Action → ℚ) (l : List Action) :
    ∀ m : ℚ, m ≤ l.foldl (fun acc x => max acc (q x)) m := by
  induction l with
  | nil => intro m; exact le_refl m
  | cons x t ih => intro m; exact le_trans (le_max_left m (q x)) (ih (max m (q x)))

lemma greedyFold_mem_val (q : Action → ℚ) (l : List Action) :
    ∀ (m : ℚ) (bs : List Action), (∀ y ∈ bs, q y = m) →
      ∀ y ∈ (l.foldl (greedyStep q) (m, bs)).2,
        q y = (l.foldl (greedyStep q) (m, bs)).1 := by
  induction l with
  | nil => intro m bs hbs y hy; exact hbs y hy
  | cons x t ih =>
    intro m bs hbs
    rw [List.foldl_cons]
    by_cases h : m < q x
    · rw [show greedyStep q (m, bs) x = (q x, [x]) from by simp [greedyStep, h]]
      exact ih (q x) [x] (by intro z hz; rw [List.mem_singleton] at hz; rw [hz])
    · by_cases h2 : q x = m
      · rw [show greedyStep q (m, bs) x = (m, bs ++ [x]) from by simp [greedyStep, h, h2]]
        refine ih m (bs ++ [x]) ?_
        intro z hz
        rcases List.mem_append.mp hz with hz | hz
        · exact hbs z hz
        · rw [List.mem_singleton] at hz; rw [hz]; exact h2
      · rw [show greedyStep q (m, bs) x = (m, bs) from by simp [greedyStep, h, h2]]
        exact ih m bs hbs

lemma greedyFold_survive (q : Action → ℚ) (l : List Action) :
    ∀ (m : ℚ) (bs : List Action), (∀ y ∈ bs, q y = m) →
      ∀ y ∈ bs, q y = (l.foldl (greedyStep q) (m, bs)).1 →
        y ∈ (l.foldl (greedyStep q) (m, bs)).2 := by
  induction l with
  | nil => intro m bs _ y hy _; exact hy
  | cons x t ih =>
    intro m bs hbs y hy hval
    rw [List.foldl_cons] at hval ⊢
    by_cases h : m < q x
    · exfalso
      rw [show greedyStep q (m, bs) x = (q x, [x]) from by simp [greedyStep, h],
        greedyFold_fst] at hval
      have h3 := le_foldlMax q t (q x)
      have h4 : q y = m := hbs y hy
      rw [← hval] at h3
      linarith
    · by_cases h2 : q x = m
      · rw [show greedyStep q (m, bs) x = (m, bs ++ [x]) from by simp [greedyStep, h, h2]]
          at hval ⊢
        refine ih m (bs ++ [x]) ?_ y (List.mem_append_left _ hy) hval
        intro z hz
        rcases List.mem_append.mp hz with hz | hz
        · exact hbs z hz
        · rw [List.mem_singleton] at hz; rw [hz]; exact h2
      · rw [show greedyStep q (m, bs) x = (m, bs) from by simp [greedyStep, h, h2]]
          at hval ⊢
        exact ih m bs hbs y hy hval

lemma greedyFold_complete (q : Action → ℚ) (l : List Action) :
    ∀ (m : ℚ) (bs : List Action), (∀ y ∈ bs, q y = m) →
      ∀ y ∈ l, q y = (l.foldl (greedyStep q) (m, bs)).1 →
        y ∈ (l.foldl (greedyStep q) (m, bs)).2 := by
  induction l with
  | nil => intro m bs _ y hy; exact absurd hy (List.not_mem_nil y)
  | cons x t ih =>
    intro m bs hbs y hy hval
    rw [List.foldl_cons] at hval ⊢
    have hsingle : ∀ w : Action, ∀ z ∈ [w], q z = q w := by
      intro w z hz; rw [List.mem_singleton] at hz; rw [hz]
    rcases List.mem_cons.mp hy with rfl | hyt
    · by_cases h : m < q y
      · rw [show greedyStep q (m, bs) y = (q y, [y]) from by simp [greedyStep, h]] at hval ⊢
        exact greedyFold_survive q t (q y) [y] (hsingle y) y (List.mem_singleton_self y) hval
      · by_cases h2 : q y = m
        · rw [show greedyStep q (m, bs) y = (m, bs ++ [y]) from by simp [greedyStep, h, h2]]
            at hval ⊢
          refine greedyFold_survive q t m (bs ++ [y]) ?_ y
            (List.mem_append_right _ (List.mem_singleton_self y)) hval
          intro z hz
          rcases List.mem_append.mp hz with hz | hz
          · exact hbs z hz
          · rw [List.mem_singleton] at hz; rw [hz]; exact h2
        · exfalso
          rw [show greedyStep q (m, bs) y = (m, bs) from by simp [greedyStep, h, h2],
            greedyFold_fst] at hval
          have h3 := le_foldlMax q t m
          rw [← hval] at h3
          have h4 : q y < m := lt_of_le_of_ne (not_lt.mp h) h2
          linarith
    · by_cases h : m < q x
      · rw [show greedyStep q (m, bs) x = (q x, [x]) from by simp [greedyStep, h]] at hval ⊢
        exact ih (q x) [x] (hsingle x) y hyt hval
      · by_cases h2 : q x = m
        · rw [show greedyStep q (m, bs) x = (m, bs ++ [x]) from by simp [greedyStep, h, h2]]
            at hval ⊢
          refine ih m (bs ++ [x]) ?_ y hyt hval
          intro z hz
          rcases List.mem_append.mp hz with hz | hz
          · exact hbs z hz
          · rw [List.mem_singleton] at hz; rw [hz]; exact h2
        · rw [show greedyStep q (m, bs) x = (m, bs) from by simp [greedyStep, h, h2]]
            at hval ⊢
          exact ih m bs hbs y hyt hval

lemma greedyFold_nodup (q : Action → ℚ) (l : List Action) :
    ∀ (m : ℚ) (bs : List Action), bs.Nodup → l.Nodup → (∀ x ∈ l, x ∉ bs) →
      (l.foldl (greedyStep q) (m, bs)).2.Nodup := by
  induction l with
  | nil => intro m bs h1 _ _; exact h1
  | cons x t ih =>
    intro m bs h1 h2 h3
    rw [List.foldl_cons]
    have hx : x ∉ bs := h3 x (List.mem_cons_self x t)
    have h2' : t.Nodup := (List.nodup_cons.mp h2).2
    have hxt : x ∉ t := (List.nodup_cons.mp h2).1
    by_cases h : m < q x
    · rw [show greedyStep q (m, bs) x = (q x, [x]) from by simp [greedyStep, h]]
      refine ih (q x) [x] (List.nodup_singleton x) h2' ?_
      intro z hz hz2
      rw [List.mem_singleton] at hz2
      exact hxt (hz2 ▸ hz)
    · by_cases hq : q x = m
      · rw [show greedyStep q (m, bs) x = (m, bs ++ [x]) from by simp [greedyStep, h, hq]]
        refine ih m (bs ++ [x]) ?_ h2' ?_
        · refine List.Nodup.append h1 (List.nodup_singleton x) ?_
          intro z hz hz2
          rw [List.mem_singleton] at hz2
          exact hx (hz2 ▸ hz)
        · intro z hz hz2
          rcases List.mem_append.mp hz2 with hz2 | hz2
          · exact h3 z (List.mem_cons_of_mem x hz) hz2
          · rw [List.mem_singleton] at hz2
            exact hxt (hz2 ▸ hz)
      · rw [show greedyStep q (m, bs) x = (m, bs) from by simp [greedyStep, h, hq]]
        exact ih m bs h1 h2' (fun z hz => h3 z (List.mem_cons_of_mem x hz))

lemma greedyFold_ne_nil (q : Action → ℚ) (l : List Action) :
    ∀ (m : ℚ) (bs : List Action), bs ≠ [] → (l.foldl (greedyStep q) (m, bs)).2 ≠ [] := by
  induction l with
  | nil => intro m bs h; exact h
  | cons x t ih =>
    intro m bs h
    rw [List.foldl_cons]
    by_cases hlt : m < q x
    · rw [show greedyStep q (m, bs) x = (q x, [x]) from by simp [greedyStep, hlt]]
      exact ih _ _ (by simp)
    · by_cases hq : q x = m
      · rw [show greedyStep q (m, bs) x = (m, bs ++ [x]) from by simp [greedyStep, hlt, hq]]
        exact ih _ _ (by simp)
      · rw [show greedyStep q (m, bs) x = (m, bs) from by simp [greedyStep, hlt, hq]]
        exact ih _ _ h

/-- The running maximum of the greedy loop is the maximum of the four
Q-values. -/
lemma greedyScan_fst (q : Action → ℚ) : (greedyScan q).1 = max4 q := by
  rw [greedyScan, greedyFold_fst]
  rfl

/-- The tied list of the greedy loop holds exactly the actions attaining the
maximal Q-value. -/
lemma mem_greedyScan (q : Action → ℚ) (y : Action) :
    y ∈ (greedyScan q).2 ↔ q y = max4 q := by
  have hinv : ∀ z ∈ [Action.UP], q z = q Action.UP := by
    intro z hz; rw [List.mem_singleton] at hz; rw [hz]
  rw [← greedyScan_fst q]
  constructor
  · intro hy
    exact greedyFold_mem_val q [Action.DOWN, Action.LEFT, Action.RIGHT]
      (q Action.UP) [Action.UP] hinv y hy
  · intro hy
    cases y with
    | UP =>
      exact greedyFold_survive q [Action.DOWN, Action.LEFT, Action.RIGHT]
        (q Action.UP) [Action.UP] hinv Action.UP (List.mem_singleton_self _) hy
    | DOWN =>
      exact greedyFold_complete q [Action.DOWN, Action.LEFT, Action.RIGHT]
        (q Action.UP) [Action.UP] hinv Action.DOWN (by simp) hy
    | LEFT =>
      exact greedyFold_complete q [Action.DOWN, Action.LEFT, Action.RIGHT]
        (q Action.UP) [Action.UP] hinv Action.LEFT (by simp) hy
    | RIGHT =>
      exact greedyFold_complete q [Action.DOWN, Action.LEFT, Action.RIGHT]
        (q Action.UP) [Action.UP] hinv Action.RIGHT (by simp) hy

lemma greedyScan_nodup (q : Action → ℚ) : (greedyScan q).2.Nodup := by
  rw [greedyScan]
  refine greedyFold_nodup q _ _ _ (List.nodup_singleton _) (by decide) ?_
  intro z hz hz2
  rw [List.mem_singleton] at hz2
  subst hz2
  simp at hz

lemma greedyScan_ne_nil (q : Action → ℚ) : (greedyScan q).2 ≠ [] := by
  rw [greedyScan]
  exact greedyFold_ne_nil q _ _ _ (by simp)

/-- Every action belongs to the ACTIONS list. -/
lemma mem_ACTIONS (a : Action) : a ∈ ACTIONS := by
  cases a <;> simp [ACTIONS]

/-- The tied list of the greedy loop has the same length as the filter of
ACTIONS by attainment of the maximum. -/
lemma greedyScan_length (q : Action → ℚ) :
    (greedyScan q).2.length = (tiedActions q).length := by
  have h1 : (greedyScan q).2.toFinset = (tiedActions q).toFinset := by
    apply Finset.ext
    intro y
    rw [List.mem_toFinset, List.mem_toFinset, mem_greedyScan, tiedActions,
      List.mem_filter]
    constructor
    · intro h; exact ⟨mem_ACTIONS y, by simp [h]⟩
    · intro h; have := h.2; simpa using this
  have h2 : (tiedActions q).Nodup :=
    List.Nodup.filter _ (by decide : ACTIONS.Nodup)
  rw [← List.toFinset_card_of_nodup (greedyScan_nodup q),
    ← List.toFinset_card_of_nodup h2, h1]

/-! ### Properties of index selection by a uniform draw -/

/-- For a draw in [0,1) the selected index is in range, so pickAt returns a
member of the list. -/
lemma pickAt_mem (bs : List Action) (hne : bs ≠ []) {u : K} (hu0 : 0 ≤ u)
    (hu1 : u < 1) : pickAt bs u ∈ bs := by
  have hk : (0 : K) < (bs.length : K) := by
    have := List.length_pos.mpr hne
    exact_mod_cast this
  have h0 : (0 : K) ≤ u * (bs.length : K) := mul_nonneg hu0 hk.le
  have h1 : u * (bs.length : K) < (bs.length : K) := by nlinarith
  have hfl0 : 0 ≤ ⌊u * (bs.length : K)⌋ := Int.floor_nonneg.mpr h0
  have hfl1 : ⌊u * (bs.length : K)⌋ < (bs.length : ℤ) := by
    apply Int.floor_lt.mpr
    exact_mod_cast h1
  have hidx : (⌊u * (bs.length : K)⌋).toNat < bs.length := by omega
  rw [pickAt, List.getD_eq_getElem?_getD, List.getElem?_eq_getElem hidx,
    Option.getD_some]
  exact List.getElem_mem hidx

/-- The set of draws in [0,1) selecting a given member of a duplicate-free
list is an interval of length 1 / length: selection is uniform. -/
lemma volume_pickAt (bs : List Action) (hnd : bs.Nodup) (b : Action)
    (hb : b ∈ bs) :
    MeasureTheory.volume {u : ℝ | u ∈ Ico (0 : ℝ) 1 ∧ pickAt bs u = b}
      = ENNReal.ofReal (1 / (bs.length : ℝ)) := by
  have hkpos : 0 < bs.length := List.length_pos.mpr (List.ne_nil_of_mem hb)
  have hkR : (0 : ℝ) < (bs.length : ℝ) := by exact_mod_cast hkpos
  have hik : List.indexOf b bs < bs.length := List.indexOf_lt_length.mpr hb
  have hbi : bs[List.indexOf b bs] = b := List.getElem_indexOf hik
  have hset : {u : ℝ | u ∈ Ico (0 : ℝ) 1 ∧ pickAt bs u = b}
      = Ico ((List.indexOf b bs : ℝ) / (bs.length : ℝ))
          (((List.indexOf b bs : ℝ) + 1) / (bs.length : ℝ)) := by
    ext u
    simp only [mem_setOf_eq, mem_Ico]
    constructor
    · rintro ⟨⟨hu0, hu1⟩, hsel⟩
      have h0 : (0 : ℝ) ≤ u * (bs.length : ℝ) := mul_nonneg hu0 hkR.le
      have h1 : u * (bs.length : ℝ) < (bs.length : ℝ) := by nlinarith
      have hfl0 : 0 ≤ ⌊u * (bs.length : ℝ)⌋ := Int.floor_nonneg.mpr h0
      have hfl1 : ⌊u * (bs.length : ℝ)⌋ < (bs.length : ℤ) := by
        apply Int.floor_lt.mpr
        exact_mod_cast h1
      have hidx : (⌊u * (bs.length : ℝ)⌋).toNat < bs.length := by omega
      rw [pickAt, List.getD_eq_getElem?_getD, List.getElem?_eq_getElem hidx,
        Option.getD_some] at hsel
      have hji : (⌊u * (bs.length : ℝ)⌋).toNat = List.indexOf b bs :=
        (hnd.getElem_inj_iff).mp (hsel.trans hbi.symm)
      have hflval : ⌊u * (bs.length : ℝ)⌋ = (List.indexOf b bs : ℤ) := by omega
      have hiff := Int.floor_eq_iff.mp hflval
      have hle : ((List.indexOf b bs : ℤ) : ℝ) ≤ u * (bs.length : ℝ) := hiff.1
      have hlt : u * (bs.length : ℝ) < ((List.indexOf b bs : ℤ) : ℝ) + 1 := hiff.2
      push_cast at hle hlt
      constructor
      · rw [div_le_iff₀ hkR]; linarith
      · rw [lt_div_iff₀ hkR]; linarith
    · rintro ⟨hl, hr⟩
      have hile : (List.indexOf b bs : ℝ) ≤ u * (bs.length : ℝ) := by
        rw [div_le_iff₀ hkR] at hl; linarith
      have hilt : u * (bs.length : ℝ) < (List.indexOf b bs : ℝ) + 1 := by
        rw [lt_div_iff₀ hkR] at hr; linarith
      have hu0 : 0 ≤ u := le_trans (by positivity) hl
      have hu1 : u < 1 := by
        apply lt_of_lt_of_le hr
        rw [div_le_one hkR]
        have : List.indexOf b bs + 1 ≤ bs.length := hik
        exact_mod_cast this
      have hflval : ⌊u * (bs.length : ℝ)⌋ = (List.indexOf b bs : ℤ) := by
        apply (Int.floor_eq_iff).mpr
        constructor
        · push_cast; linarith
        · push_cast; linarith
      refine ⟨⟨hu0, hu1⟩, ?_⟩
      rw [pickAt, hflval, Int.toNat_natCast, List.getD_eq_getElem?_getD,
        List.getElem?_eq_getElem hik, Option.getD_some]
      exact hbi
  rw [hset, Real.volume_Ico]
  congr 1
  rw [div_sub_div_same]
  ring_nf

/-! ### Properties of the value-iteration argmax loop -/

lemma bellmanFold_fst (f : Action → ℚ) (l : List Action) :
    ∀ (m : ℚ) (b : Action),
      (l.foldl (bellmanStep f) (m, b)).1 = l.foldl (fun acc x => max acc (f x)) m := by
  induction l with
  | nil => intro m b; rfl
  | cons x t ih =>
    intro m b
    rw [List.foldl_cons, List.foldl_cons]
    by_cases h : m < f x
    · rw [show bellmanStep f (m, b) x = (f x, x) from by simp [bellmanStep, h],
        max_eq_right h.le]
      exact ih _ _
    · rw [show bellmanStep f (m, b) x = (m, b) from by simp [bellmanStep, h],
        max_eq_left (not_lt.mp h)]
      exact ih _ _

/-- The argmax loop keeps the first action attaining the running maximum:
either nothing in l beat the initial pair, or the result is the first
element of l attaining the final maximum. -/
lemma bellmanFold_first (f : Action → ℚ) (l : List Action) :
    ∀ (m : ℚ) (b : Action), f b = m →
      f (l.foldl (bellmanStep f) (m, b)).2 = (l.foldl (bellmanStep f) (m, b)).1 ∧
      (((l.foldl (bellmanStep f) (m, b)).2 = b ∧ (l.foldl (bellmanStep f) (m, b)).1 = m) ∨
        (m < (l.foldl (bellmanStep f) (m, b)).1 ∧
          l.find? (fun a => f a = (l.foldl (bellmanStep f) (m, b)).1) =
            some (l.foldl (bellmanStep f) (m, b)).2)) := by
  induction l with
  | nil => intro m b hb; exact ⟨hb, Or.inl ⟨rfl, rfl⟩⟩
  | cons x t ih =>
    intro m b hb
    rw [List.foldl_cons]
    by_cases h : m < f x
    · rw [show bellmanStep f (m, b) x = (f x, x) from by simp [bellmanStep, h]]
      obtain ⟨hval, hcase⟩ := ih (f x) x rfl
      refine ⟨hval, Or.inr ?_⟩
      rcases hcase with ⟨hc, hm⟩ | ⟨hlt, hfind⟩
      · refine ⟨by rw [hm]; exact h, ?_⟩
        rw [List.find?_cons_of_pos]
        · rw [hc]
        · simp [hm]
      · refine ⟨h.trans hlt, ?_⟩
        rw [List.find?_cons_of_neg, hfind]
        simp only [decide_eq_true_eq]
        intro hx
        exact absurd hx (ne_of_lt hlt)
    · rw [show bellmanStep f (m, b) x = (m, b) from by simp [bellmanStep, h]]
      obtain ⟨hval, hcase⟩ := ih m b hb
      refine ⟨hval, ?_⟩
      rcases hcase with ⟨hc, hm⟩ | ⟨hlt, hfind⟩
      · exact Or.inl ⟨hc, hm⟩
      · refine Or.inr ⟨hlt, ?_⟩
        rw [List.find?_cons_of_neg, hfind]
        simp only [decide_eq_true_eq]
        intro hx
        have : f x ≤ m := not_lt.mp h
        rw [hx] at this
        exact absurd hlt (not_lt.mpr this)

/-- The running maximum of the argmax loop is the maximum of the four
expected utilities. -/
lemma bellmanScan_fst (f : Action → ℚ) : (bellmanScan f).1 = max4 f := by
  rw [bellmanScan, bellmanFold_fst]
  rfl

/-- The chosen action of the argmax loop is the first action in the order
UP, DOWN, LEFT, RIGHT attaining the maximum. -/
lemma bellmanScan_find (f : Action → ℚ) :
    firstAttaining f (max4 f) = some (bellmanScan f).2 := by
  have h := bellmanFold_first f [Action.DOWN, Action.LEFT, Action.RIGHT]
    (f Action.UP) Action.UP rfl
  rw [show [Action.DOWN, Action.LEFT, Action.RIGHT].foldl (bellmanStep f)
      (f Action.UP, Action.UP) = bellmanScan f from rfl] at h
  rw [← bellmanScan_fst f]
  obtain ⟨hval, hcase⟩ := h
  rcases hcase with ⟨hc, hm⟩ | ⟨hlt, hfind⟩
  · rw [firstAttaining, ACTIONS, List.find?_cons_of_pos]
    · rw [hc]
    · simp [hm]
  · rw [firstAttaining, ACTIONS, List.find?_cons_of_neg, hfind]
    simp only [decide_eq_true_eq]
    intro hx
    exact absurd hx (ne_of_lt hlt)

/-! ### The greedy selection attains the maximum -/

/-- For any tie-break draw in [0,1), getGreedyAction returns an action whose
Q-value is the maximal Q-value of the cell. -/
lemma greedy_attains (cell : CellState) {u : K} (hu0 : 0 ≤ u) (hu1 : u < 1) :
    cell.qValues (getGreedyAction cell u) = max4 cell.qValues := by
  have hm := pickAt_mem (greedyScan cell.qValues).2 (greedyScan_ne_nil _) hu0 hu1
  exact (mem_greedyScan cell.qValues _).mp hm

/-- getGreedyAction with a draw in [0,1) picks uniformly among the tied
actions: each action attaining the maximum is selected on a set of draws of
measure 1 / (number of tied actions). -/
lemma volume_greedy (cell : CellState) (b : Action)
    (hb : cell.qValues b = max4 cell.qValues) :
    MeasureTheory.volume {u : ℝ | u ∈ Ico (0 : ℝ) 1 ∧ getGreedyAction cell u = b}
      = ENNReal.ofReal (1 / ((tiedActions cell.qValues).length : ℝ)) := by
  have hmem : b ∈ (greedyScan cell.qValues).2 := (mem_greedyScan _ _).mpr hb
  have h := volume_pickAt (greedyScan cell.qValues).2 (greedyScan_nodup _) b hmem
  rw [greedyScan_length] at h
  exact h

/-! ### Small invariance helpers for the value-iteration sweep -/

lemma vi_preserves (g : Grid) (γ : ℚ) (r : Fin ROWS) (c : Fin COLS) :
    ((performValueIterationStep g γ) r c).type = (g r c).type ∧
    ((performValueIterationStep g γ) r c).reward = (g r c).reward := by
  simp only [performValueIterationStep]
  split_ifs <;> exact ⟨rfl, rfl⟩

lemma vi_terminal_pin (g : Grid) (γ : ℚ) (r : Fin ROWS) (c : Fin COLS)
    (h : (g r c).type = CellType.TERMINAL) :
    ((performValueIterationStep g γ) r c).utility = (g r c).reward := by
  simp only [performValueIterationStep]
  rw [if_neg (by rw [h]; decide), if_pos h]

lemma viIter_preserves (γ : ℚ) (g : Grid) (n : ℕ) (r : Fin ROWS) (c : Fin COLS) :
    ((viIter γ g n) r c).type = (g r c).type ∧
    ((viIter γ g n) r c).reward = (g r c).reward := by
  induction n with
  | zero => exact ⟨rfl, rfl⟩
  | succ k ih =>
    have h := vi_preserves (viIter γ g k) γ r c
    exact ⟨h.1.trans ih.1, h.2.trans ih.2⟩

/-! ### Claim theorems -/

/-- C9: for every stepReward, createInitialGrid returns the 3×4 grid with
the WALL at (1,1) carrying reward 0, TERMINAL +1 at (0,3), TERMINAL −1 at
(1,3), START at (2,0), all other cells EMPTY, every non-WALL non-TERMINAL
cell carrying the given stepReward, and every cell zero-initialized
(utility 0, all four qValues 0, policy null, visitCount 0) and storing its
own (row, col) position. -/
theorem claim_C9 (stepReward : ℚ) :
    ROWS = 3 ∧ COLS = 4 ∧
    ((createInitialGrid stepReward) 1 1).type = CellType.WALL ∧
    ((createInitialGrid stepReward) 1 1).reward = 0 ∧
    ((createInitialGrid stepReward) 0 3).type = CellType.TERMINAL ∧
    ((createInitialGrid stepReward) 0 3).reward = 1 ∧
    ((createInitialGrid stepReward) 1 3).type = CellType.TERMINAL ∧
    ((createInitialGrid stepReward) 1 3).reward = -1 ∧
    ((createInitialGrid stepReward) 2 0).type = CellType.START ∧
    (∀ (r : Fin ROWS) (c : Fin COLS),
      (¬(r.val = 1 ∧ c.val = 1) → ¬(r.val = 0 ∧ c.val = 3) →
        ¬(r.val = 1 ∧ c.val = 3) → ¬(r.val = 2 ∧ c.val = 0) →
        ((createInitialGrid stepReward) r c).type = CellType.EMPTY) ∧
      (((createInitialGrid stepReward) r c).type ≠ CellType.WALL →
        ((createInitialGrid stepReward) r c).type ≠ CellType.TERMINAL →
        ((createInitialGrid stepReward) r c).reward = stepReward) ∧
      ((createInitialGrid stepReward) r c).utility = 0 ∧
      (∀ a : Action, ((createInitialGrid stepReward) r c).qValues a = 0) ∧
      ((createInitialGrid stepReward) r c).policy = none ∧
      ((createInitialGrid stepReward) r c).visitCount = 0 ∧
      ((createInitialGrid stepReward) r c).row = r.val ∧
      ((createInitialGrid stepReward) r c).col = c.val) := by
  refine ⟨rfl, rfl, rfl, rfl, rfl, rfl, rfl, rfl, rfl, ?_⟩
  intro r c
  refine ⟨?_, ?_, rfl, fun _ => rfl, rfl, rfl, rfl, rfl⟩
  · intro h1 h2 h3 h4
    simp only [createInitialGrid, if_neg h1, if_neg h2, if_neg h3, if_neg h4]
  · intro hW hT
    by_cases h1 : r.val = 1 ∧ c.val = 1
    · exfalso; apply hW; simp only [createInitialGrid, if_pos h1]
    · by_cases h2 : r.val = 0 ∧ c.val = 3
      · exfalso; apply hT; simp only [createInitialGrid, if_neg h1, if_pos h2]
      · by_cases h3 : r.val = 1 ∧ c.val = 3
        · exfalso; apply hT
          simp only [createInitialGrid, if_neg h1, if_neg h2, if_pos h3]
        · by_cases h4 : r.val = 2 ∧ c.val = 0
          · simp only [createInitialGrid, if_neg h1, if_neg h2, if_neg h3, if_pos h4]
          · simp only [createInitialGrid, if_neg h1, if_neg h2, if_neg h3, if_neg h4]

/-- C9 witness at a concrete input. -/
theorem claim_C9_witness :
    ((createInitialGrid (-1 / 25)) 1 1).type = CellType.WALL ∧
    ((createInitialGrid (-1 / 25)) 2 0).type = CellType.START :=
  ⟨(claim_C9 (-1 / 25)).2.2.1, (claim_C9 (-1 / 25)).2.2.2.2.2.2.2.2.1⟩

/-- C5: for in-bounds coordinates, deterministic getNextState moves one
step in the direction of the action when the destination is in bounds and
not a WALL, and otherwise returns the unchanged origin; and in both modes,
for every draw, the returned coordinates are within grid bounds. -/
theorem claim_C5 (g : Grid) (row col : ℤ) (a : Action)
    (h0 : 0 ≤ row) (h1 : row < (ROWS : ℤ)) (h2 : 0 ≤ col) (h3 : col < (COLS : ℤ)) :
    (∀ u : K, getNextState g row col a false u =
      (if 0 ≤ row + (actionDelta a).1 ∧ row + (actionDelta a).1 < (ROWS : ℤ) ∧
          0 ≤ col + (actionDelta a).2 ∧ col + (actionDelta a).2 < (COLS : ℤ) ∧
          (cellAt g (row + (actionDelta a).1) (col + (actionDelta a).2)).type ≠ CellType.WALL
        then (row + (actionDelta a).1, col + (actionDelta a).2)
        else (row, col))) ∧
    (∀ (b : Bool) (u : K),
      0 ≤ (getNextState g row col a b u).1 ∧
      (getNextState g row col a b u).1 < (ROWS : ℤ) ∧
      0 ≤ (getNextState g row col a b u).2 ∧
      (getNextState g row col a b u).2 < (COLS : ℤ)) := by
  constructor
  · intro u
    have hslip : slipAction a false u = a := by simp [slipAction]
    simp only [getNextState, hslip]
    have hiff : (row + (actionDelta a).1 < 0 ∨
          (ROWS : ℤ) ≤ row + (actionDelta a).1 ∨
          col + (actionDelta a).2 < 0 ∨
          (COLS : ℤ) ≤ col + (actionDelta a).2 ∨
          (cellAt g (row + (actionDelta a).1) (col + (actionDelta a).2)).type = CellType.WALL) ↔
        ¬(0 ≤ row + (actionDelta a).1 ∧ row + (actionDelta a).1 < (ROWS : ℤ) ∧
          0 ≤ col + (actionDelta a).2 ∧ col + (actionDelta a).2 < (COLS : ℤ) ∧
          (cellAt g (row + (actionDelta a).1) (col + (actionDelta a).2)).type ≠ CellType.WALL) := by
      constructor
      · rintro (h | h | h | h | h) ⟨p1, p2, p3, p4, p5⟩
        · omega
        · omega
        · omega
        · omega
        · exact p5 h
      · intro h
        by_contra hc
        push_neg at hc
        exact h ⟨by omega, by omega, by omega, by omega, hc.2.2.2.2⟩
    simp only [hiff, ite_not]
  · intro b u
    simp only [getNextState]
    split_ifs with h
    · exact ⟨h0, h1, h2, h3⟩
    · push_neg at h
      exact ⟨h.1, h.2.1, h.2.2.1, h.2.2.2.1⟩

/-- C5 witness at a concrete input. -/
theorem claim_C5_witness :
    (0 : ℤ) ≤ 2 ∧ (2 : ℤ) < (ROWS : ℤ) ∧ (0 : ℤ) ≤ 0 ∧ (0 : ℤ) < (COLS : ℤ) ∧
    getNextState (createInitialGrid (-1 / 25)) 2 0 Action.UP false (0 : ℚ) =
      (if 0 ≤ (2 : ℤ) + (actionDelta Action.UP).1 ∧
          (2 : ℤ) + (actionDelta Action.UP).1 < (ROWS : ℤ) ∧
          0 ≤ (0 : ℤ) + (actionDelta Action.UP).2 ∧
          (0 : ℤ) + (actionDelta Action.UP).2 < (COLS : ℤ) ∧
          (cellAt (createInitialGrid (-1 / 25))
            ((2 : ℤ) + (actionDelta Action.UP).1)
            ((0 : ℤ) + (actionDelta Action.UP).2)).type ≠ CellType.WALL
        then ((2 : ℤ) + (actionDelta Action.UP).1, (0 : ℤ) + (actionDelta Action.UP).2)
        else ((2 : ℤ), (0 : ℤ))) :=
  ⟨by decide, by decide, by decide, by decide,
    (claim_C5 (createInitialGrid (-1 / 25)) 2 0 Action.UP
      (by decide) (by decide) (by decide) (by decide)).1 (0 : ℚ)⟩

/-- C4: in the grid returned by performValueIterationStep, every TERMINAL
cell's utility equals that cell's own reward (and stays pinned there after
any positive number of sweeps), and every WALL cell is returned entirely
unchanged. -/
theorem claim_C4 (g : Grid) (γ : ℚ) (r : Fin ROWS) (c : Fin COLS) :
    ((g r c).type = CellType.TERMINAL →
      ((performValueIterationStep g γ) r c).utility = (g r c).reward) ∧
    ((g r c).type = CellType.WALL →
      (performValueIterationStep g γ) r c = g r c) ∧
    (∀ n : ℕ, 1 ≤ n → (g r c).type = CellType.TERMINAL →
      ((viIter γ g n) r c).utility = (g r c).reward) := by
  refine ⟨vi_terminal_pin g γ r c, ?_, ?_⟩
  · intro h
    simp only [performValueIterationStep, if_pos h]
  · intro n hn ht
    cases n with
    | zero => exact absurd hn (by norm_num)
    | succ k =>
      have hpres := viIter_preserves γ g k r c
      have hpin := vi_terminal_pin (viIter γ g k) γ r c (hpres.1.trans ht)
      calc ((viIter γ g (k + 1)) r c).utility
          = ((viIter γ g k) r c).reward := hpin
        _ = (g r c).reward := hpres.2

/-- C4 witness at a concrete input. -/
theorem claim_C4_witness :
    ((createInitialGrid (-1 / 25)) 0 3).type = CellType.TERMINAL ∧
    ((performValueIterationStep (createInitialGrid (-1 / 25)) (9 / 10)) 0 3).utility =
      ((createInitialGrid (-1 / 25)) 0 3).reward :=
  ⟨by decide, (claim_C4 (createInitialGrid (-1 / 25)) (9 / 10) 0 3).1 (by decide)⟩

/-! ### Frame lemmas for the single-transition updates -/

lemma updateQLearning_frame (g : Grid) (s : Pos) (a : Action) (r : ℚ) (sP : Pos)
    (alpha gamma : ℚ) (u : K) (i : Fin ROWS) (j : Fin COLS)
    (hij : ¬(i = s.1 ∧ j = s.2)) :
    (updateQLearning g s a r sP alpha gamma u) i j = g i j := by
  simp only [updateQLearning]
  rw [if_neg hij]

lemma updateSARSA_frame (g : Grid) (s : Pos) (a : Action) (r : ℚ) (sP : Pos)
    (aP : Action) (alpha gamma : ℚ) (u : K) (i : Fin ROWS) (j : Fin COLS)
    (hij : ¬(i = s.1 ∧ j = s.2)) :
    (updateSARSA g s a r sP aP alpha gamma u) i j = g i j := by
  simp only [updateSARSA]
  rw [if_neg hij]

lemma updateTD_frame (g : Grid) (s sP : Pos) (r alpha gamma : ℚ)
    (i : Fin ROWS) (j : Fin COLS) (hij : ¬(i = s.1 ∧ j = s.2)) :
    (updateTD g s sP r alpha gamma) i j = g i j := by
  simp only [updateTD]
  rw [if_neg hij]

lemma updateQLearning_at (g : Grid) (s : Pos) (a : Action) (r : ℚ) (sP : Pos)
    (alpha gamma : ℚ) (u : K) :
    (updateQLearning g s a r sP alpha gamma u) s.1 s.2 =
      qlNewCell g s a r sP alpha gamma u := by
  simp only [updateQLearning]
  simp

lemma updateSARSA_at (g : Grid) (s : Pos) (a : Action) (r : ℚ) (sP : Pos)
    (aP : Action) (alpha gamma : ℚ) (u : K) :
    (updateSARSA g s a r sP aP alpha gamma u) s.1 s.2 =
      sarsaNewCell g s a r sP aP alpha gamma u := by
  simp only [updateSARSA]
  simp

lemma updateTD_at (g : Grid) (s sP : Pos) (r alpha gamma : ℚ) :
    (updateTD g s sP r alpha gamma) s.1 s.2 =
      { g s.1 s.2 with utility := (g s.1 s.2).utility + alpha * (r + gamma *
        (if (g sP.1 sP.2).type = CellType.TERMINAL then (g sP.1 sP.2).reward
          else (g sP.1 sP.2).utility) - (g s.1 s.2).utility) } := by
  simp only [updateTD]
  simp

lemma qlNewCell_qValues (g : Grid) (s : Pos) (a : Action) (r : ℚ) (sP : Pos)
    (alpha gamma : ℚ) (u : K) (x : Action) :
    (qlNewCell g s a r sP alpha gamma u).qValues x =
      if x = a then (g s.1 s.2).qValues a + alpha * (r + gamma *
        (if (g sP.1 sP.2).type = CellType.TERMINAL then 0
          else max4 (g sP.1 sP.2).qValues) - (g s.1 s.2).qValues a)
      else (g s.1 s.2).qValues x := rfl

lemma qlNewCell_qValues_self (g : Grid) (s : Pos) (a : Action) (r : ℚ) (sP : Pos)
    (alpha gamma : ℚ) (u : K) :
    (qlNewCell g s a r sP alpha gamma u).qValues a =
      (g s.1 s.2).qValues a + alpha * (r + gamma *
        (if (g sP.1 sP.2).type = CellType.TERMINAL then 0
          else max4 (g sP.1 sP.2).qValues) - (g s.1 s.2).qValues a) := by
  rw [qlNewCell_qValues, if_pos rfl]

lemma sarsaNewCell_qValues (g : Grid) (s : Pos) (a : Action) (r : ℚ) (sP : Pos)
    (aP : Action) (alpha gamma : ℚ) (u : K) (x : Action) :
    (sarsaNewCell g s a r sP aP alpha gamma u).qValues x =
      if x = a then (g s.1 s.2).qValues a + alpha * (r + gamma *
        (if (g sP.1 sP.2).type = CellType.TERMINAL then 0
          else (g sP.1 sP.2).qValues aP) - (g s.1 s.2).qValues a)
      else (g s.1 s.2).qValues x := rfl

lemma sarsaNewCell_qValues_self (g : Grid) (s : Pos) (a : Action) (r : ℚ) (sP : Pos)
    (aP : Action) (alpha gamma : ℚ) (u : K) :
    (sarsaNewCell g s a r sP aP alpha gamma u).qValues a =
      (g s.1 s.2).qValues a + alpha * (r + gamma *
        (if (g sP.1 sP.2).type = CellType.TERMINAL then 0
          else (g sP.1 sP.2).qValues aP) - (g s.1 s.2).qValues a) := by
  rw [sarsaNewCell_qValues, if_pos rfl]

/-- getGreedyAction only reads the qValues of its cell, so it attains the
maximum of any cell carrying the same qValues. -/
lemma greedy_attains_cong (cell cellB : CellState)
    (hq : cell.qValues = cellB.qValues) {u : K} (hu0 : 0 ≤ u) (hu1 : u < 1) :
    cellB.qValues (getGreedyAction cell u) = max4 cellB.qValues := by
  rw [← hq]
  exact greedy_attains cell hu0 hu1

/-- C8: each of updateQLearning, updateSARSA and the TD(0) update, applied
at a non-terminal non-wall source cell s, changes the grid at most at s;
within s the position, type, reward and visitCount are unchanged, the two
Q-rules also leave every qValues entry at an action other than a unchanged
(so they change only qValues[a], utility and policy), and TD(0)
additionally leaves qValues and policy unchanged; consequently no field of
a TERMINAL or WALL cell is ever mutated. -/
theorem claim_C8 (g : Grid) (s sP : Pos) (a aP : Action) (r alpha gamma : ℚ)
    (u : K) (hterm : (g s.1 s.2).type ≠ CellType.TERMINAL)
    (hwall : (g s.1 s.2).type ≠ CellType.WALL) :
    (∀ (i : Fin ROWS) (j : Fin COLS), ¬(i = s.1 ∧ j = s.2) →
      (updateQLearning g s a r sP alpha gamma u) i j = g i j ∧
      (updateSARSA g s a r sP aP alpha gamma u) i j = g i j ∧
      (updateTD g s sP r alpha gamma) i j = g i j) ∧
    (((updateQLearning g s a r sP alpha gamma u) s.1 s.2).row = (g s.1 s.2).row ∧
      ((updateQLearning g s a r sP alpha gamma u) s.1 s.2).col = (g s.1 s.2).col ∧
      ((updateQLearning g s a r sP alpha gamma u) s.1 s.2).type = (g s.1 s.2).type ∧
      ((updateQLearning g s a r sP alpha gamma u) s.1 s.2).reward = (g s.1 s.2).reward ∧
      ((updateQLearning g s a r sP alpha gamma u) s.1 s.2).visitCount = (g s.1 s.2).visitCount ∧
      (∀ x : Action, x ≠ a →
        ((updateQLearning g s a r sP alpha gamma u) s.1 s.2).qValues x =
          (g s.1 s.2).qValues x)) ∧
    (((updateSARSA g s a r sP aP alpha gamma u) s.1 s.2).row = (g s.1 s.2).row ∧
      ((updateSARSA g s a r sP aP alpha gamma u) s.1 s.2).col = (g s.1 s.2).col ∧
      ((updateSARSA g s a r sP aP alpha gamma u) s.1 s.2).type = (g s.1 s.2).type ∧
      ((updateSARSA g s a r sP aP alpha gamma u) s.1 s.2).reward = (g s.1 s.2).reward ∧
      ((updateSARSA g s a r sP aP alpha gamma u) s.1 s.2).visitCount = (g s.1 s.2).visitCount ∧
      (∀ x : Action, x ≠ a →
        ((updateSARSA g s a r sP aP alpha gamma u) s.1 s.2).qValues x =
          (g s.1 s.2).qValues x)) ∧
    (((updateTD g s sP r alpha gamma) s.1 s.2).row = (g s.1 s.2).row ∧
      ((updateTD g s sP r alpha gamma) s.1 s.2).col = (g s.1 s.2).col ∧
      ((updateTD g s sP r alpha gamma) s.1 s.2).type = (g s.1 s.2).type ∧
      ((updateTD g s sP r alpha gamma) s.1 s.2).reward = (g s.1 s.2).reward ∧
      ((updateTD g s sP r alpha gamma) s.1 s.2).visitCount = (g s.1 s.2).visitCount ∧
      ((updateTD g s sP r alpha gamma) s.1 s.2).qValues = (g s.1 s.2).qValues ∧
      ((updateTD g s sP r alpha gamma) s.1 s.2).policy = (g s.1 s.2).policy) ∧
    (∀ (i : Fin ROWS) (j : Fin COLS),
      ((g i j).type = CellType.TERMINAL ∨ (g i j).type = CellType.WALL) →
      (updateQLearning g s a r sP alpha gamma u) i j = g i j ∧
      (updateSARSA g s a r sP aP alpha gamma u) i j = g i j ∧
      (updateTD g s sP r alpha gamma) i j = g i j) := by
  refine ⟨?_, ?_, ?_, ?_, ?_⟩
  · intro i j hij
    exact ⟨updateQLearning_frame g s a r sP alpha gamma u i j hij,
      updateSARSA_frame g s a r sP aP alpha gamma u i j hij,
      updateTD_frame g s sP r alpha gamma i j hij⟩
  · rw [updateQLearning_at]
    refine ⟨rfl, rfl, rfl, rfl, rfl, ?_⟩
    intro x hx
    rw [qlNewCell_qValues, if_neg hx]
  · rw [updateSARSA_at]
    refine ⟨rfl, rfl, rfl, rfl, rfl, ?_⟩
    intro x hx
    rw [sarsaNewCell_qValues, if_neg hx]
  · rw [updateTD_at]
    exact ⟨rfl, rfl, rfl, rfl, rfl, rfl, rfl⟩
  · intro i j hij
    have hne : ¬(i = s.1 ∧ j = s.2) := by
      rintro ⟨rfl, rfl⟩
      rcases hij with h | h
      · exact hterm h
      · exact hwall h
    exact ⟨updateQLearning_frame g s a r sP alpha gamma u i j hne,
      updateSARSA_frame g s a r sP aP alpha gamma u i j hne,
      updateTD_frame g s sP r alpha gamma i j hne⟩

/-- C8 witness at a concrete input. -/
theorem claim_C8_witness :
    ((createInitialGrid (-1 / 25)) 2 0).type ≠ CellType.TERMINAL ∧
    ((updateTD (createInitialGrid (-1 / 25)) (2, 0) (1, 0) (-1 / 25) (1 / 10) (9 / 10))
        2 0).qValues = ((createInitialGrid (-1 / 25)) 2 0).qValues :=
  ⟨by decide,
    (claim_C8 (K := ℚ) (createInitialGrid (-1 / 25)) (2, 0) (1, 0) Action.UP Action.DOWN
      (-1 / 25) (1 / 10) (9 / 10) (1 / 2) (by decide) (by decide)).2.2.2.1.2.2.2.2.2.1⟩

/-- C2: updateQLearning implements the off-policy rule
Q(s,a) = oldQ + alpha·(r + gamma·M − oldQ) with M the input grid's maximal
Q at s′ (0 when s′ is TERMINAL), then sets utility(s) to the maximum of the
updated Q-values and policy(s) to an action attaining it; the equation is a
function of (g,s,a,r,s′,alpha,gamma) alone, so no action taken at s′ is
read. -/
theorem claim_C2 (g : Grid) (s : Pos) (a : Action) (r : ℚ) (sP : Pos)
    (alpha gamma : ℚ) (u : K) (hs : (g s.1 s.2).type ≠ CellType.TERMINAL) :
    ((updateQLearning g s a r sP alpha gamma u) s.1 s.2).qValues a =
      (g s.1 s.2).qValues a + alpha * (r + gamma *
        (if (g sP.1 sP.2).type = CellType.TERMINAL then 0
          else max4 (g sP.1 sP.2).qValues) - (g s.1 s.2).qValues a) ∧
    ((updateQLearning g s a r sP alpha gamma u) s.1 s.2).utility =
      max4 ((updateQLearning g s a r sP alpha gamma u) s.1 s.2).qValues ∧
    (0 ≤ u → u < 1 →
      ∃ b : Action, ((updateQLearning g s a r sP alpha gamma u) s.1 s.2).policy = some b ∧
        ((updateQLearning g s a r sP alpha gamma u) s.1 s.2).qValues b =
          max4 ((updateQLearning g s a r sP alpha gamma u) s.1 s.2).qValues) := by
  refine ⟨?_, ?_, ?_⟩
  · rw [updateQLearning_at, qlNewCell_qValues_self]
  · rw [updateQLearning_at]
    exact rfl
  · intro hu0 hu1
    rw [updateQLearning_at]
    exact ⟨_, rfl, greedy_attains_cong _ _ rfl hu0 hu1⟩

/-- C2 witness at a concrete input. -/
theorem claim_C2_witness :
    ((createInitialGrid (-1 / 25)) 2 0).type ≠ CellType.TERMINAL ∧
    ((updateQLearning (createInitialGrid (-1 / 25)) (2, 0) Action.UP (-1 / 25) (1, 0)
        (1 / 10) (9 / 10) ((1 : ℚ) / 2)) 2 0).qValues Action.UP =
      ((createInitialGrid (-1 / 25)) 2 0).qValues Action.UP + (1 / 10) * ((-1 / 25) + (9 / 10) *
        (if ((createInitialGrid (-1 / 25)) 1 0).type = CellType.TERMINAL then 0
          else max4 ((createInitialGrid (-1 / 25)) 1 0).qValues) -
        ((createInitialGrid (-1 / 25)) 2 0).qValues Action.UP) :=
  ⟨by decide,
    (claim_C2 (createInitialGrid (-1 / 25)) (2, 0) Action.UP (-1 / 25) (1, 0)
      (1 / 10) (9 / 10) ((1 : ℚ) / 2) (by decide)).1⟩

/-- C3: updateSARSA implements the on-policy rule
Q(s,a) = oldQ + alpha·(r + gamma·T − oldQ) with T the input grid's
Q(s′, a′) for the supplied next action a′ (0 when s′ is TERMINAL) — so for
positive alpha and gamma, supplying a lower-valued a′ yields a strictly
lower updated Q(s,a) — then sets utility(s) to the maximum of the updated
Q-values and policy(s) to an action attaining it. -/
theorem claim_C3 (g : Grid) (s : Pos) (a : Action) (r : ℚ) (sP : Pos)
    (aP : Action) (alpha gamma : ℚ) (u : K)
    (hs : (g s.1 s.2).type ≠ CellType.TERMINAL) :
    ((updateSARSA g s a r sP aP alpha gamma u) s.1 s.2).qValues a =
      (g s.1 s.2).qValues a + alpha * (r + gamma *
        (if (g sP.1 sP.2).type = CellType.TERMINAL then 0
          else (g sP.1 sP.2).qValues aP) - (g s.1 s.2).qValues a) ∧
    ((updateSARSA g s a r sP aP alpha gamma u) s.1 s.2).utility =
      max4 ((updateSARSA g s a r sP aP alpha gamma u) s.1 s.2).qValues ∧
    (0 ≤ u → u < 1 →
      ∃ b : Action, ((updateSARSA g s a r sP aP alpha gamma u) s.1 s.2).policy = some b ∧
        ((updateSARSA g s a r sP aP alpha gamma u) s.1 s.2).qValues b =
          max4 ((updateSARSA g s a r sP aP alpha gamma u) s.1 s.2).qValues) ∧
    (∀ aGood aLow : Action, (g sP.1 sP.2).type ≠ CellType.TERMINAL →
      (g sP.1 sP.2).qValues aLow < (g sP.1 sP.2).qValues aGood →
      0 < alpha → 0 < gamma →
      ((updateSARSA g s a r sP aLow alpha gamma u) s.1 s.2).qValues a <
        ((updateSARSA g s a r sP aGood alpha gamma u) s.1 s.2).qValues a) := by
  refine ⟨?_, ?_, ?_, ?_⟩
  · rw [updateSARSA_at, sarsaNewCell_qValues_self]
  · rw [updateSARSA_at]
    exact rfl
  · intro hu0 hu1
    rw [updateSARSA_at]
    exact ⟨_, rfl, greedy_attains_cong _ _ rfl hu0 hu1⟩
  · intro aGood aLow hterm hlt halpha hgamma
    rw [updateSARSA_at, updateSARSA_at, sarsaNewCell_qValues_self,
      sarsaNewCell_qValues_self, if_neg hterm, if_neg hterm]
    nlinarith [mul_pos (mul_pos halpha hgamma) (sub_pos.mpr hlt)]

/-- C3 witness at a concrete input. -/
theorem claim_C3_witness :
    ((createInitialGrid (-1 / 25)) 2 0).type ≠ CellType.TERMINAL ∧
    ((updateSARSA (createInitialGrid (-1 / 25)) (2, 0) Action.UP (-1 / 25) (1, 0)
        Action.LEFT (1 / 10) (9 / 10) ((1 : ℚ) / 2)) 2 0).qValues Action.UP =
      ((createInitialGrid (-1 / 25)) 2 0).qValues Action.UP + (1 / 10) * ((-1 / 25) + (9 / 10) *
        (if ((createInitialGrid (-1 / 25)) 1 0).type = CellType.TERMINAL then 0
          else ((createInitialGrid (-1 / 25)) 1 0).qValues Action.LEFT) -
        ((createInitialGrid (-1 / 25)) 2 0).qValues Action.UP) :=
  ⟨by decide,
    (claim_C3 (createInitialGrid (-1 / 25)) (2, 0) Action.UP (-1 / 25) (1, 0)
      Action.LEFT (1 / 10) (9 / 10) ((1 : ℚ) / 2) (by decide)).1⟩

/-- The value-iteration sweep at a non-WALL non-TERMINAL cell writes the
Bellman backup and the argmax policy. -/
lemma vi_active (g : Grid) (γ : ℚ) (r : Fin ROWS) (c : Fin COLS)
    (hw : (g r c).type ≠ CellType.WALL) (ht : (g r c).type ≠ CellType.TERMINAL) :
    (performValueIterationStep g γ) r c =
      { g r c with
        utility := (g r c).reward + γ *
          (bellmanScan (fun a => expectedUtil g (r.val : ℤ) (c.val : ℤ) a)).1,
        policy := some
          (bellmanScan (fun a => expectedUtil g (r.val : ℤ) (c.val : ℤ) a)).2 } := by
  simp only [performValueIterationStep]
  rw [if_neg hw, if_neg ht]

/-- C1: for every grid and gamma, performValueIterationStep gives each
non-WALL non-TERMINAL cell utility = own reward + gamma × (max over the
four actions of the 0.8/0.1/0.1-weighted expected previous utility, read
from the input grid — Jacobi), and policy = the first action in the order
UP, DOWN, LEFT, RIGHT attaining that maximum. -/
theorem claim_C1 (g : Grid) (γ : ℚ) (rr : Fin ROWS) (cc : Fin COLS)
    (hw : (g rr cc).type ≠ CellType.WALL)
    (ht : (g rr cc).type ≠ CellType.TERMINAL) :
    ((performValueIterationStep g γ) rr cc).utility =
      (g rr cc).reward + γ * max4 (fun a => expectedUtil g (rr.val : ℤ) (cc.val : ℤ) a) ∧
    ((performValueIterationStep g γ) rr cc).policy =
      firstAttaining (fun a => expectedUtil g (rr.val : ℤ) (cc.val : ℤ) a)
        (max4 (fun a => expectedUtil g (rr.val : ℤ) (cc.val : ℤ) a)) := by
  rw [vi_active g γ rr cc hw ht]
  constructor
  · show (g rr cc).reward + γ *
      (bellmanScan (fun a => expectedUtil g (rr.val : ℤ) (cc.val : ℤ) a)).1 = _
    rw [bellmanScan_fst]
  · show some (bellmanScan (fun a => expectedUtil g (rr.val : ℤ) (cc.val : ℤ) a)).2 = _
    exact (bellmanScan_find _).symm

/-- C1 witness at a concrete input. -/
theorem claim_C1_witness :
    ((createInitialGrid (-1 / 25)) 2 0).type ≠ CellType.WALL ∧
    ((performValueIterationStep (createInitialGrid (-1 / 25)) (9 / 10)) 2 0).utility =
      ((createInitialGrid (-1 / 25)) 2 0).reward + (9 / 10) *
        max4 (fun a => expectedUtil (createInitialGrid (-1 / 25))
          (((2 : Fin ROWS)).val : ℤ) (((0 : Fin COLS)).val : ℤ) a) :=
  ⟨by decide,
    (claim_C1 (createInitialGrid (-1 / 25)) (9 / 10) 2 0 (by decide) (by decide)).1⟩

/-- The slip is the identity in deterministic mode. -/
lemma slipAction_false (a : Action) (u : K) : slipAction a false u = a := by
  simp [slipAction]

/-- In stochastic mode the slip reduces to two plain threshold tests on the
draw. -/
lemma slipAction_true (a : Action) (u : K) :
    slipAction a true u =
      if 0.8 < u then
        (if 0.9 < u then (getOrthogonalActions a).1 else (getOrthogonalActions a).2)
      else a := by
  simp [slipAction]

/-- The draw preimages of the three slip outcomes are intervals. -/
lemma slip_sets (a : Action) (h1 : (getOrthogonalActions a).1 ≠ a)
    (h2 : (getOrthogonalActions a).2 ≠ a) :
    {u : ℝ | u ∈ Ico (0 : ℝ) 1 ∧ slipAction a true u = a} = Icc (0 : ℝ) 0.8 ∧
    {u : ℝ | u ∈ Ico (0 : ℝ) 1 ∧ slipAction a true u = (getOrthogonalActions a).1}
      = Ioo (0.9 : ℝ) 1 ∧
    {u : ℝ | u ∈ Ico (0 : ℝ) 1 ∧ slipAction a true u = (getOrthogonalActions a).2}
      = Ioc (0.8 : ℝ) 0.9 := by
  have h12 : (getOrthogonalActions a).1 ≠ (getOrthogonalActions a).2 := by
    cases a <;> decide
  refine ⟨?_, ?_, ?_⟩
  · ext u
    simp only [mem_setOf_eq, mem_Ico, mem_Icc, slipAction_true]
    constructor
    · rintro ⟨⟨hu0, hu1⟩, hs⟩
      refine ⟨hu0, ?_⟩
      by_contra hgt
      push_neg at hgt
      rw [if_pos hgt] at hs
      split_ifs at hs
      · exact h1 hs
      · exact h2 hs
    · rintro ⟨hu0, hle⟩
      exact ⟨⟨hu0, lt_of_le_of_lt hle (by norm_num)⟩, by rw [if_neg (not_lt.mpr hle)]⟩
  · ext u
    simp only [mem_setOf_eq, mem_Ico, mem_Ioo, slipAction_true]
    constructor
    · rintro ⟨⟨hu0, hu1⟩, hs⟩
      refine ⟨?_, hu1⟩
      by_contra hle
      push_neg at hle
      by_cases hgt : (0.8 : ℝ) < u
      · rw [if_pos hgt, if_neg (not_lt.mpr hle)] at hs
        exact h12 hs.symm
      · rw [if_neg hgt] at hs
        exact h1 hs.symm
    · rintro ⟨hu9, hu1⟩
      have hu8 : (0.8 : ℝ) < u := lt_trans (by norm_num) hu9
      exact ⟨⟨le_trans (by norm_num) hu9.le, hu1⟩, by rw [if_pos hu8, if_pos hu9]⟩
  · ext u
    simp only [mem_setOf_eq, mem_Ico, mem_Ioc, slipAction_true]
    constructor
    · rintro ⟨⟨hu0, hu1⟩, hs⟩
      by_cases hgt : (0.8 : ℝ) < u
      · refine ⟨hgt, ?_⟩
        by_contra hgt9
        push_neg at hgt9
        rw [if_pos hgt, if_pos hgt9] at hs
        exact h12 hs
      · exfalso
        rw [if_neg hgt] at hs
        exact h2 hs.symm
    · rintro ⟨hu8, hle9⟩
      refine ⟨⟨le_trans (by norm_num) hu8.le, lt_of_le_of_lt hle9 (by norm_num)⟩, ?_⟩
      rw [if_pos hu8, if_neg (not_lt.mpr hle9)]

/-- C6: with the draw u uniform on [0,1), the stochastic slip executes the
intended action on a set of measure exactly 0.8 and each orthogonal
substitute on a set of measure exactly 0.1; the orthogonal pair of a
vertical action is {LEFT, RIGHT} and of a horizontal action is {UP, DOWN};
and the executed action is then resolved by the same deterministic
move-or-bump rule. -/
theorem claim_C6 (a : Action) :
    MeasureTheory.volume {u : ℝ | u ∈ Ico (0 : ℝ) 1 ∧ slipAction a true u = a}
      = ENNReal.ofReal 0.8 ∧
    MeasureTheory.volume {u : ℝ | u ∈ Ico (0 : ℝ) 1 ∧
        slipAction a true u = (getOrthogonalActions a).1} = ENNReal.ofReal 0.1 ∧
    MeasureTheory.volume {u : ℝ | u ∈ Ico (0 : ℝ) 1 ∧
        slipAction a true u = (getOrthogonalActions a).2} = ENNReal.ofReal 0.1 ∧
    (getOrthogonalActions Action.UP = (Action.LEFT, Action.RIGHT) ∧
      getOrthogonalActions Action.DOWN = (Action.LEFT, Action.RIGHT) ∧
      getOrthogonalActions Action.LEFT = (Action.UP, Action.DOWN) ∧
      getOrthogonalActions Action.RIGHT = (Action.UP, Action.DOWN)) ∧
    (∀ (g : Grid) (row col : ℤ) (u : ℝ),
      getNextState g row col a true u =
        getNextState g row col (slipAction a true u) false (0 : ℝ)) := by
  have h1 : (getOrthogonalActions a).1 ≠ a := by cases a <;> decide
  have h2 : (getOrthogonalActions a).2 ≠ a := by cases a <;> decide
  obtain ⟨hs1, hs2, hs3⟩ := slip_sets a h1 h2
  refine ⟨?_, ?_, ?_, by decide, ?_⟩
  · rw [hs1, Real.volume_Icc]
    norm_num
  · rw [hs2, Real.volume_Ioo]
    norm_num
  · rw [hs3, Real.volume_Ioc]
    norm_num
  · intro g row col u
    simp only [getNextState, slipAction_false]

/-- C7: getGreedyAction returns an action attaining the maximal Q-value and
breaks exact ties uniformly at random (probability 1/k for each of the k
tied actions, never by a fixed order); getEpsilonGreedyAction explores — a
branch taken on a draw set of measure epsilon, yielding a uniformly random
action among all four — and otherwise defers to the greedy selection. -/
theorem claim_C7 (cell : CellState) (epsilon : ℝ) (he0 : 0 ≤ epsilon)
    (he1 : epsilon ≤ 1) :
    (∀ u : ℝ, 0 ≤ u → u < 1 →
      cell.qValues (getGreedyAction cell u) = max4 cell.qValues) ∧
    (∀ b : Action, cell.qValues b = max4 cell.qValues →
      MeasureTheory.volume {u : ℝ | u ∈ Ico (0 : ℝ) 1 ∧ getGreedyAction cell u = b}
        = ENNReal.ofReal (1 / ((tiedActions cell.qValues).length : ℝ))) ∧
    MeasureTheory.volume {u : ℝ | u ∈ Ico (0 : ℝ) 1 ∧ u < epsilon}
      = ENNReal.ofReal epsilon ∧
    (∀ u1 u2 : ℝ, u1 < epsilon →
      getEpsilonGreedyAction cell epsilon u1 u2 = pickAt ACTIONS u2) ∧
    (∀ b : Action, MeasureTheory.volume
        {u : ℝ | u ∈ Ico (0 : ℝ) 1 ∧ pickAt ACTIONS u = b} = ENNReal.ofReal (1 / 4)) ∧
    (∀ u1 u2 : ℝ, ¬(u1 < epsilon) →
      getEpsilonGreedyAction cell epsilon u1 u2 = getGreedyAction cell u2) := by
  refine ⟨?_, ?_, ?_, ?_, ?_, ?_⟩
  · intro u hu0 hu1
    exact greedy_attains cell hu0 hu1
  · intro b hb
    exact volume_greedy cell b hb
  · have hset : {u : ℝ | u ∈ Ico (0 : ℝ) 1 ∧ u < epsilon} = Ico (0 : ℝ) epsilon := by
      ext u
      simp only [mem_setOf_eq, mem_Ico]
      constructor
      · rintro ⟨⟨h0, _⟩, he⟩
        exact ⟨h0, he⟩
      · rintro ⟨h0, he⟩
        exact ⟨⟨h0, lt_of_lt_of_le he he1⟩, he⟩
    rw [hset, Real.volume_Ico, sub_zero]
  · intro u1 u2 h
    simp only [getEpsilonGreedyAction, if_pos h]
  · intro b
    have h := volume_pickAt ACTIONS (by decide) b (mem_ACTIONS b)
    rw [h]
    norm_num [ACTIONS]
  · intro u1 u2 h
    simp only [getEpsilonGreedyAction, if_neg h]

/-- C7 witness at a concrete input. -/
theorem claim_C7_witness :
    (0 : ℝ) ≤ 1 / 2 ∧ (1 / 2 : ℝ) ≤ 1 ∧
    MeasureTheory.volume {u : ℝ | u ∈ Ico (0 : ℝ) 1 ∧ u < (1 / 2 : ℝ)}
      = ENNReal.ofReal (1 / 2) :=
  ⟨by norm_num, by norm_num,
    (claim_C7 default (1 / 2) (by norm_num) (by norm_num)).2.2.1⟩

/-- C10: getGreedyAction is total on every cell with the four Q-values
present — including WALL and TERMINAL cells, on which the spec declares it
undefined: for every draw in [0,1) it returns one of the four actions, with
Q-value equal to the cell's maximal Q-value; on the freshly constructed
WALL cell (1,1) and TERMINAL cell (0,3), whose Q-values are all 0, it
selects uniformly among all four actions rather than failing. -/
theorem claim_C10 (stepReward : ℚ) :
    (∀ (cell : CellState) (u : ℝ), 0 ≤ u → u < 1 →
      getGreedyAction cell u ∈ ACTIONS ∧
      cell.qValues (getGreedyAction cell u) = max4 cell.qValues) ∧
    ((createInitialGrid stepReward) 1 1).type = CellType.WALL ∧
    ((createInitialGrid stepReward) 0 3).type = CellType.TERMINAL ∧
    (∀ b : Action,
      MeasureTheory.volume {u : ℝ | u ∈ Ico (0 : ℝ) 1 ∧
        getGreedyAction ((createInitialGrid stepReward) 1 1) u = b}
        = ENNReal.ofReal (1 / 4) ∧
      MeasureTheory.volume {u : ℝ | u ∈ Ico (0 : ℝ) 1 ∧
        getGreedyAction ((createInitialGrid stepReward) 0 3) u = b}
        = ENNReal.ofReal (1 / 4)) := by
  refine ⟨?_, rfl, rfl, ?_⟩
  · intro cell u hu0 hu1
    exact ⟨mem_ACTIONS _, greedy_attains cell hu0 hu1⟩
  · intro b
    have hb1 : ((createInitialGrid stepReward) 1 1).qValues b =
        max4 ((createInitialGrid stepReward) 1 1).qValues := by
      show (0 : ℚ) = max4 (fun _ => (0 : ℚ))
      simp [max4]
    have hb2 : ((createInitialGrid stepReward) 0 3).qValues b =
        max4 ((createInitialGrid stepReward) 0 3).qValues := by
      show (0 : ℚ) = max4 (fun _ => (0 : ℚ))
      simp [max4]
    have hlen1 : (tiedActions ((createInitialGrid stepReward) 1 1).qValues).length = 4 := by
      show (tiedActions (fun _ => (0 : ℚ))).length = 4
      decide
    have hlen2 : (tiedActions ((createInitialGrid stepReward) 0 3).qValues).length = 4 := by
      show (tiedActions (fun _ => (0 : ℚ))).length = 4
      decide
    constructor
    · rw [volume_greedy ((createInitialGrid stepReward) 1 1) b hb1, hlen1]
      norm_num
    · rw [volume_greedy ((createInitialGrid stepReward) 0 3) b hb2, hlen2]
      norm_num

/-- C10 witness at a concrete input. -/
theorem claim_C10_witness :
    (0 : ℝ) ≤ 1 / 2 ∧ (1 / 2 : ℝ) < 1 ∧
    getGreedyAction ((createInitialGrid (-1 / 25)) 1 1) (1 / 2 : ℝ) ∈ ACTIONS :=
  ⟨by norm_num, by norm_num,
    ((claim_C10 (-1 / 25)).1 ((createInitialGrid (-1 / 25)) 1 1) (1 / 2 : ℝ)
      (by norm_num) (by norm_num)).1⟩

end RLVisualLearner
